import Mathlib

/-!
Shallow embedding of the IPC server and cancellable-command execution
engine of the windbg-ext-mcp extension.

Sources embedded:
- `src/extension/src/ipc/mcp_server.cpp` (`MCPServer::Start`,
  `MCPServer::RegisterHandler`, `MCPServer::ProcessMessage`, and the
  newline-delimited message extraction loop of `MCPServer::HandleClient`);
- `src/extension/src/command/command_utilities.cpp`
  (`CommandExecutor::ExecuteWithTimeout`,
  `CommandUtilities::ExecuteWinDbgCommand`);
- `src/extension/src/command/command_handlers.cpp`
  (`CommandHandlers::ExecuteWinDbgCommand`).

Machine-level conventions: `HRESULT` values are modelled as their 32-bit
unsigned bit patterns (`Nat`), with `FAILED hr` meaning the sign bit is
set, exactly as the `FAILED` macro tests.  JSON values (nlohmann::json)
are modelled by the inductive `Json`; C++ exceptions are modelled with
`Except`.
-/

/-- 32-bit HRESULT success code `S_OK`. -/
def S_OK : Nat := 0

/-- 32-bit HRESULT failure code `E_FAIL` (0x80004005). -/
def E_FAIL : Nat := 0x80004005

/-- 32-bit HRESULT failure code `E_ABORT` (0x80004004). -/
def E_ABORT : Nat := 0x80004004

/-- The `FAILED(hr)` macro: true when the sign bit of the 32-bit value is set. -/
def FAILED (hr : Nat) : Bool := if 2147483648 ≤ hr then true else false

/-- `CommandExecutor::CommandResult` from command_utilities.cpp:
output text, HRESULT, and the timeout flag. -/
structure CommandResult where
  output : String
  hr : Nat
  hasTimedOut : Bool
deriving DecidableEq, Repr

/-- Model of the nlohmann::json values the embedded code manipulates. -/
inductive Json where
  | null : Json
  | str : String → Json
  | int : Int → Json
  | bool : Bool → Json
  | obj : List (String × Json) → Json
deriving Repr

/-- Look a key up in an association list (first match). -/
def assocGet (fields : List (String × Json)) (key : String) : Option Json :=
  match fields with
  | [] => none
  | (k, v) :: rest => if k = key then some v else assocGet rest key

/-- Replace the value at a key, or append the pair when the key is absent
(`std::map::operator[]` assignment semantics used by nlohmann objects). -/
def assocSet (fields : List (String × Json)) (key : String) (v : Json) :
    List (String × Json) :=
  match fields with
  | [] => [(key, v)]
  | (k, w) :: rest =>
      if k = key then (k, v) :: rest else (k, w) :: assocSet rest key v

/-- Field lookup on a `Json` object; `none` for non-objects or absent keys. -/
def Json.getField (j : Json) (key : String) : Option Json :=
  match j with
  | .obj fields => assocGet fields key
  | _ => none

/-- nlohmann `j.value(key, default)` for a string default: the default when
the key is absent, the stored string when present with string type, and a
thrown `type_error` otherwise (also when `j` is not an object). -/
def Json.valueStr (j : Json) (key d : String) : Except String String :=
  match j with
  | .obj fields =>
      match assocGet fields key with
      | none => .ok d
      | some (.str s) => .ok s
      | some _ => .error "type_error: incompatible value type"
  | _ => .error "type_error: cannot use value with this type"

/-- nlohmann `j.value(key, default)` for an integer default. -/
def Json.valueInt (j : Json) (key : String) (d : Int) : Except String Int :=
  match j with
  | .obj fields =>
      match assocGet fields key with
      | none => .ok d
      | some (.int n) => .ok n
      | some _ => .error "type_error: incompatible value type"
  | _ => .error "type_error: cannot use value with this type"

/-- nlohmann `j[key] = v`: insert-or-assign on an object, object creation on
null, and a thrown `type_error` on every other value kind. -/
def Json.setField (j : Json) (key : String) (v : Json) : Except String Json :=
  match j with
  | .obj fields => .ok (.obj (assocSet fields key v))
  | .null => .ok (.obj [(key, v)])
  | _ => .error "type_error: cannot use operator with a string argument"

/-- Type of command handlers (`MessageHandler`); a thrown `std::exception`
is an `Except.error` carrying the `what()` text. -/
def MessageHandler : Type := Json → Except String Json

/-- `m_handlers.find(command)`: exact key lookup in the handler map. -/
def handlersFind (handlers : List (String × MessageHandler)) (command : String) :
    Option MessageHandler :=
  match handlers with
  | [] => none
  | (k, h) :: rest => if k = command then some h else handlersFind rest command

/-- `MCPServer::ProcessMessage` from mcp_server.cpp, lines 324-372.  The
handler map is the `m_handlers` association list.  `Except.error` models an
exception escaping `ProcessMessage` (a `type_error` from a field access
outside the try block); handler exceptions and `operator[]` failures inside
the try block are converted to a `command_failed` error response. -/
def ProcessMessage (handlers : List (String × MessageHandler)) (message : Json) :
    Except String Json := do
  let messageType ← message.valueStr "type" ""
  if messageType ≠ "command" then
    let idVal ← message.valueInt "id" 0
    return Json.obj [("id", .int idVal), ("type", .str "error"),
      ("error_code", .str "invalid_message_type"),
      ("error_message", .str "Only command messages are supported")]
  else
    let command ← message.valueStr "command" ""
    let id ← message.valueInt "id" 0
    match handlersFind handlers command with
    | none =>
        return Json.obj [("id", .int id), ("type", .str "error"),
          ("error_code", .str "invalid_command"),
          ("error_message", .str ("Unknown command: " ++ command))]
    | some handler =>
        match (do
          let response ← handler message
          let response ← response.setField "id" (.int id)
          response.setField "command" (.str command)) with
        | .ok response => return response
        | .error e =>
            return Json.obj [("id", .int id), ("type", .str "error"),
              ("error_code", .str "command_failed"),
              ("error_message", .str ("Command execution failed: " ++ e))]

/-! ## CommandExecutor (command_utilities.cpp, lines 25-156) -/

/-- Abstraction of one run of the worker thread launched by
`CommandExecutor::ExecuteWithTimeout`: whether the completion future became
ready within `timeoutMs`, whether (after the interrupt request) it became
ready within the grace wait, whether the worker had stored the shared
control interface by the time the timeout fired, and the `CommandResult`
the worker set into the promise. -/
structure WorkerBehavior where
  finishesInTime : Bool
  finishesInGrace : Bool
  controlSet : Bool
  workerResult : CommandResult
deriving DecidableEq, Repr

/-- Observable outcome of `CommandExecutor::ExecuteWithTimeout`: the
returned `CommandResult`, whether `SetInterrupt` was invoked on the shared
control interface, and whether the worker thread was joined or detached. -/
structure ExecOutcome where
  result : CommandResult
  interruptIssued : Bool
  joined : Bool
  detached : Bool
deriving DecidableEq, Repr

/-- `CommandExecutor::ExecuteWithTimeout` (command_utilities.cpp, lines
37-155).  On timeout the result is the fixed string "Command timed out"
with `hr = E_ABORT`; `SetInterrupt` is called only when the worker had
already stored the control interface; when the future becomes ready within
the grace wait the code calls `future.get()` into `interruptedResult` but
never reads it — it only appends " (interrupted)" to the fixed timeout
text and joins the thread; otherwise the thread is detached. -/
def CommandExecutor.ExecuteWithTimeout (w : WorkerBehavior) : ExecOutcome :=
  if w.finishesInTime then
    { result := w.workerResult, interruptIssued := false,
      joined := true, detached := false }
  else
    let result : CommandResult :=
      { output := "Command timed out", hr := E_ABORT, hasTimedOut := true }
    if w.finishesInGrace then
      { result := { result with output := result.output ++ " (interrupted)" },
        interruptIssued := w.controlSet, joined := true, detached := false }
    else
      { result := result, interruptIssued := w.controlSet,
        joined := false, detached := true }

/-- C++ exception kinds thrown by `CommandUtilities::ExecuteWinDbgCommand`. -/
inductive ExecError where
  | invalidArgument (msg : String)
  | runtimeError (msg : String)
deriving DecidableEq, Repr

/-- `std::hex` rendering of a 32-bit value (lowercase, no padding), as
`std::ostringstream << std::hex` produces for an `HRESULT`. -/
def hexLower (n : Nat) : String := String.mk (Nat.toDigits 16 n)

/-- `sprintf_s(hrStr, "0x%08X", hr)` without the "0x": uppercase,
zero-padded to eight digits. -/
def hex8Upper (n : Nat) : String :=
  String.mk ((List.range 8).map (fun i =>
    Nat.digitChar (n / 16 ^ (7 - i) % 16) |>.toUpper))

/-- `CommandUtilities::ExecuteWinDbgCommand` (command_utilities.cpp, lines
158-185).  `env` supplies the worker behavior the executor observes for a
given command and timeout.  The empty-command check throws
`std::invalid_argument` before the try block; inside the try block a
timeout or failed HRESULT throws `std::runtime_error`, which the catch
clause rewraps with the "Command execution failed: " notice. -/
def CommandUtilities.ExecuteWinDbgCommand (env : String → Nat → WorkerBehavior)
    (command : String) (timeoutMs : Nat) : Except ExecError String :=
  if command.isEmpty then
    .error (.invalidArgument "Command cannot be empty")
  else
    let result := (CommandExecutor.ExecuteWithTimeout (env command timeoutMs)).result
    if result.hasTimedOut then
      .error (.runtimeError ("Command execution failed: " ++
        ("Command timed out after " ++ toString timeoutMs ++ " ms")))
    else if FAILED result.hr then
      .error (.runtimeError ("Command execution failed: " ++
        ("Command failed with HRESULT: 0x" ++ hexLower result.hr ++
          (if result.output.isEmpty then "" else " - " ++ result.output))))
    else
      .ok result.output

/-! ## CommandHandlers::ExecuteWinDbgCommand (command_handlers.cpp, 675-737) -/

/-- `haystack.find(needle) != std::string::npos`: substring containment. -/
def containsSub (haystack needle : String) : Bool :=
  decide (List.IsInfix needle.toList haystack.toList)

/-- `s.substr(s.find(" ") + 1)` when a space exists in `s`. -/
def afterFirstSpace : List Char → Option (List Char)
  | [] => none
  | c :: rest => if c = ' ' then some rest else afterFirstSpace rest

/-- `s.substr(0, s.find(" "))` when a space exists, otherwise `s` itself
(the code only truncates when `find` succeeds). -/
def truncAtSpace : List Char → List Char
  | [] => []
  | c :: rest => if c = ' ' then [] else c :: truncAtSpace rest

/-- The emptiness check of `CommandHandlers::ExecuteWinDbgCommand`
(command_handlers.cpp, line 698): output empty, or exactly the string
"NONE", or exactly the string "None". -/
def outputEmptinessCheck (output : String) : Bool :=
  output.isEmpty || output == "NONE" || output == "None"

/-- The message returned when the output is (still) judged empty
(command_handlers.cpp, lines 729-733). -/
def noOutputMessage : String :=
  "Command returned no output. This could indicate:\n" ++
  "1. Invalid command syntax\n" ++
  "2. Command not applicable in current context\n" ++
  "3. Extension not loaded\n" ++
  "Check command help for proper usage."

/-- `CommandHandlers::ExecuteWinDbgCommand` (command_handlers.cpp, lines
675-737).  `exec` is the executor oracle giving the `CommandResult` of
`CommandExecutor::ExecuteWithTimeout` for a command and timeout.  Errors
model thrown `std::runtime_error`s. -/
def CommandHandlers.ExecuteWinDbgCommand (exec : String → Nat → CommandResult)
    (command : String) (timeoutMs : Nat) : Except String String :=
  let result := exec command timeoutMs
  if result.hasTimedOut then
    .error ("Command execution timed out after " ++ toString timeoutMs ++ "ms")
  else if FAILED result.hr then
    let errorMsg := if result.output.isEmpty then "Unknown error" else result.output
    .error ("Error executing command '" ++ command ++ "': " ++ errorMsg ++
      " (HRESULT: 0x" ++ hex8Upper result.hr ++ ")")
  else if outputEmptinessCheck result.output then
    if containsSub command "!process" then
      match afterFirstSpace command.toList with
      | some addrChars =>
          let processAddr := String.mk (truncAtSpace addrChars)
          let altResult := exec (".process /r /p " ++ processAddr) timeoutMs
          if !(FAILED altResult.hr) && !altResult.output.isEmpty then
            .ok ("Process context: " ++ altResult.output)
          else
            .ok noOutputMessage
      | none => .ok noOutputMessage
    else if containsSub command "!address" && containsSub command "-f:" then
      let altResult := exec "!address" (timeoutMs / 2)
      if !(FAILED altResult.hr) && !altResult.output.isEmpty then
        .ok ("Command with filter returned no results. Try: " ++ altResult.output)
      else
        .ok noOutputMessage
    else
      .ok noOutputMessage
  else
    .ok result.output

/-! ## MCPServer::Start and MCPServer::RegisterHandler (mcp_server.cpp) -/

/-- The slice of `MCPServer` state that `Start` touches. -/
structure MCPServerState where
  running : Bool
  pipeName : String
deriving DecidableEq, Repr

/-- Effects of one call to `MCPServer::Start` (mcp_server.cpp, lines
16-29): the boolean return value, the updated state, and whether a new
server thread was spawned. -/
structure StartOutcome where
  returned : Bool
  state : MCPServerState
  threadStarted : Bool
deriving DecidableEq, Repr

/-- `MCPServer::Start`: when `m_running` is already set it returns `true`
immediately (comment: "Server already running") without touching the pipe
name or spawning a thread; otherwise it records the pipe name, sets the
running flag, spawns the server thread, and returns `true`. -/
def MCPServer.Start (s : MCPServerState) (pipeName : String) : StartOutcome :=
  if s.running then
    { returned := true, state := s, threadStarted := false }
  else
    { returned := true, state := { running := true, pipeName := pipeName },
      threadStarted := true }

/-- `std::map::operator[]` assignment: replace the value when the key is
present, insert the pair otherwise. -/
def mapInsert {α : Type} : List (String × α) → String → α → List (String × α)
  | [], key, v => [(key, v)]
  | (k, w) :: rest, key, v =>
      if k = key then (k, v) :: rest else (k, w) :: mapInsert rest key v

/-- `std::map::find` by key. -/
def mapFind {α : Type} : List (String × α) → String → Option α
  | [], _ => none
  | (k, v) :: rest, key => if k = key then some v else mapFind rest key

/-- `MCPServer::RegisterHandler` (mcp_server.cpp, lines 59-61): a single
statement `m_handlers[command] = handler;` — it returns `void` and signals
no error. -/
def MCPServer.RegisterHandler {α : Type} (handlers : List (String × α))
    (command : String) (handler : α) : List (String × α) :=
  mapInsert handlers command handler

/-! ## Newline-delimited message extraction (mcp_server.cpp, lines 265-316)

`MCPServer::HandleClient` appends each read chunk to `messageBuffer` and
then runs `while ((pos = messageBuffer.find('\n')) != npos)`, taking
`substr(0, pos)` as one message and erasing through the newline.  Bytes
are modelled as `Char` lists. -/

/-- One step of `messageBuffer.find('\n')` / `substr` / `erase`: the first
message (text before the first newline) and the buffer content after that
newline, or `none` when the buffer holds no newline. -/
def splitFirstNl : List Char → Option (List Char × List Char)
  | [] => none
  | c :: rest =>
      if c = '\n' then some ([], rest)
      else
        match splitFirstNl rest with
        | none => none
        | some mr => some (c :: mr.1, mr.2)

/-- A successful `splitFirstNl` strictly shrinks the buffer. -/
theorem splitFirstNl_length {buf : List Char} {mr : List Char × List Char}
    (h : splitFirstNl buf = some mr) : mr.2.length < buf.length := by
  induction buf generalizing mr with
  | nil => simp [splitFirstNl] at h
  | cons c rest ih =>
      simp only [splitFirstNl] at h
      by_cases hc : c = '\n'
      · rw [if_pos hc] at h
        injection h with h
        simp [← h]
      · rw [if_neg hc] at h
        cases hsr : splitFirstNl rest with
        | none => rw [hsr] at h; cases h
        | some mrTail =>
            rw [hsr] at h
            injection h with h
            have := ih hsr
            rw [← h]
            simp only [List.length_cons]
            omega

/-- The extraction loop of `HandleClient`: repeatedly take the text before
the first newline as a message until no newline remains; the leftover
bytes stay in the buffer. -/
def extractLoop (buf : List Char) : List (List Char) × List Char :=
  match h : splitFirstNl buf with
  | none => ([], buf)
  | some mr =>
      have : mr.2.length < buf.length := splitFirstNl_length h
      let res := extractLoop mr.2
      (mr.1 :: res.1, res.2)
termination_by buf.length

/-- One iteration of the read loop: append the chunk to the per-connection
buffer, extract every complete message, accumulate them in order. -/
def handleClientStep (state : List (List Char) × List Char)
    (chunk : List Char) : List (List Char) × List Char :=
  let ex := extractLoop (state.2 ++ chunk)
  (state.1 ++ ex.1, ex.2)

/-- Processing of a whole sequence of read chunks by `HandleClient`,
starting from an empty message buffer. -/
def handleClientChunks (chunks : List (List Char)) :
    List (List Char) × List Char :=
  chunks.foldl handleClientStep ([], [])

/-- Reassemble messages with their terminating newlines. -/
def joinNl (msgs : List (List Char)) : List Char :=
  (msgs.map (fun m => m ++ ['\n'])).flatten

/-! ## Concrete values used to exercise the model -/

/-- A handler that throws: models a `MessageHandler` whose invocation
raises `std::runtime_error("boom")`. -/
def throwingHandler : MessageHandler := fun _ => Except.error "boom"

/-- A handler that succeeds with a bare response object that sets neither
`id` nor `command`. -/
def okHandler : MessageHandler := fun _ =>
  Except.ok (Json.obj [("type", Json.str "response"),
    ("status", Json.str "success"), ("output", Json.str "ok")])

/-- A handler that returns a non-object value (a bare string), on which
the dispatcher's `response["id"] = id` assignment throws. -/
def stringHandler : MessageHandler := fun _ => Except.ok (Json.str "ok")

/-- `true` exactly on values on which the two `operator[]` assignments of
the dispatch success path succeed (objects and null). -/
def Json.isObjOrNull : Json → Bool
  | .obj _ => true
  | .null => true
  | _ => false

/-- A worker run that misses its deadline, finishes within the grace
period, had stored the control interface, and produced partial output. -/
def partialOutputWorker : WorkerBehavior :=
  { finishesInTime := false
    finishesInGrace := true
    controlSet := true
    workerResult :=
      { output := "partial output", hr := S_OK, hasTimedOut := false } }

/-- An executor oracle whose every run succeeds with an output that merely
contains the sentinel "NONE" as a substring. -/
def sentinelSubstrExec : String → Nat → CommandResult := fun _ _ =>
  { output := "x NONE y", hr := S_OK, hasTimedOut := false }

/-! # Theorems -/

/-- Setting a key stores its value (insert-or-assign lookup). -/
theorem assocGet_assocSet_self (fields : List (String × Json)) (key : String)
    (v : Json) : assocGet (assocSet fields key v) key = some v := by
  induction fields with
  | nil => simp [assocSet, assocGet]
  | cons p rest ih =>
      obtain ⟨k, w⟩ := p
      by_cases hk : k = key
      · simp [assocSet, assocGet, hk]
      · simp [assocSet, assocGet, hk, ih]

/-- Setting a key leaves every other key unchanged. -/
theorem assocGet_assocSet_ne (fields : List (String × Json)) (key key' : String)
    (v : Json) (h : key ≠ key') :
    assocGet (assocSet fields key v) key' = assocGet fields key' := by
  induction fields with
  | nil => simp [assocSet, assocGet, h]
  | cons p rest ih =>
      obtain ⟨k, w⟩ := p
      by_cases hk : k = key
      · subst hk
        simp [assocSet, assocGet, h]
      · simp [assocSet, assocGet, hk, ih]

/-- C9.  For every parsed inbound message whose `type` field is absent or
not equal to "command" (`valueStr` then yields a string different from
"command"; an absent field yields the default ""), `ProcessMessage`
returns — for every handler map, no handler being consulted — the
`invalid_message_type` error response carrying the request's `id`
(`valueInt` yields the default 0 when `id` is absent), and no exception
escapes. -/
theorem ProcessMessage_invalid_message_type
    (handlers : List (String × MessageHandler)) (message : Json)
    (ty : String) (i : Int)
    (hty : message.valueStr "type" "" = .ok ty)
    (hneq : ty ≠ "command")
    (hid : message.valueInt "id" 0 = .ok i) :
    ProcessMessage handlers message = .ok (Json.obj [("id", .int i),
      ("type", .str "error"), ("error_code", .str "invalid_message_type"),
      ("error_message", .str "Only command messages are supported")]) := by
  simp [ProcessMessage, hty, hneq, hid, bind, Except.bind, pure, Except.pure]

/-- Witness for C9: a message of type "status" with no `id` field gets the
`invalid_message_type` response with `id = 0`. -/
theorem ProcessMessage_invalid_message_type_witness :
    ProcessMessage [] (Json.obj [("type", Json.str "status")]) =
      .ok (Json.obj [("id", Json.int 0), ("type", Json.str "error"),
        ("error_code", Json.str "invalid_message_type"),
        ("error_message", Json.str "Only command messages are supported")]) :=
  ProcessMessage_invalid_message_type [] _ "status" 0 rfl (by decide) rfl

/-- C4.  For every message of type "command" whose `command` resolves to a
registered handler, if the handler throws then `ProcessMessage` returns
(it does not propagate the exception) the `command_failed` error response
carrying the failure text and the request's `id`. -/
theorem ProcessMessage_handler_failure_caught
    (handlers : List (String × MessageHandler)) (message : Json)
    (cmd : String) (i : Int) (h : MessageHandler) (e : String)
    (hty : message.valueStr "type" "" = .ok "command")
    (hcmd : message.valueStr "command" "" = .ok cmd)
    (hid : message.valueInt "id" 0 = .ok i)
    (hfind : handlersFind handlers cmd = some h)
    (hthrow : h message = .error e) :
    ProcessMessage handlers message = .ok (Json.obj [("id", .int i),
      ("type", .str "error"), ("error_code", .str "command_failed"),
      ("error_message", .str ("Command execution failed: " ++ e))]) := by
  simp [ProcessMessage, hty, hcmd, hid, hfind, hthrow, bind, Except.bind,
    pure, Except.pure]

/-- Witness for C4: a registered handler that throws "boom" yields the
`command_failed` response with the request's id 7. -/
theorem ProcessMessage_handler_failure_caught_witness :
    ProcessMessage [("run", throwingHandler)]
      (Json.obj [("type", Json.str "command"), ("id", Json.int 7),
        ("command", Json.str "run")]) =
      .ok (Json.obj [("id", Json.int 7), ("type", Json.str "error"),
        ("error_code", Json.str "command_failed"),
        ("error_message", Json.str "Command execution failed: boom")]) :=
  ProcessMessage_handler_failure_caught [("run", throwingHandler)] _ "run" 7
    throwingHandler "boom" rfl rfl rfl rfl rfl

/-- C5.  For every message of type "command" whose `command` name is not in
the handler map, `ProcessMessage` returns the `invalid_command` error
response; and a message whose `command` field is absent or the empty
string flows through the very same lookup with `cmd = ""` (second
conjunct), hence is handled identically to an unknown command name. -/
theorem ProcessMessage_unknown_command_invalid
    (handlers : List (String × MessageHandler)) (message : Json)
    (cmd : String) (i : Int)
    (hty : message.valueStr "type" "" = .ok "command")
    (hcmd : message.valueStr "command" "" = .ok cmd)
    (hid : message.valueInt "id" 0 = .ok i)
    (hfind : handlersFind handlers cmd = none) :
    ProcessMessage handlers message = .ok (Json.obj [("id", .int i),
      ("type", .str "error"), ("error_code", .str "invalid_command"),
      ("error_message", .str ("Unknown command: " ++ cmd))]) ∧
    ((message.getField "command" = none ∨
      message.getField "command" = some (.str "")) → cmd = "") := by
  constructor
  · simp [ProcessMessage, hty, hcmd, hid, hfind, bind, Except.bind,
      pure, Except.pure]
  · intro hfield
    cases message with
    | obj fields =>
        simp only [Json.getField] at hfield
        simp only [Json.valueStr] at hcmd
        rcases hfield with hnone | hempty
        · rw [hnone] at hcmd
          exact (Except.ok.injEq .. ▸ hcmd).symm
        · rw [hempty] at hcmd
          exact (Except.ok.injEq .. ▸ hcmd).symm
    | null => simp [Json.valueStr] at hcmd
    | str s => simp [Json.valueStr] at hcmd
    | int n => simp [Json.valueStr] at hcmd
    | bool b => simp [Json.valueStr] at hcmd

/-- Witness for C5: with an empty handler map, a command message with no
`command` field resolves to `cmd = ""` and gets the `invalid_command`
response. -/
theorem ProcessMessage_unknown_command_invalid_witness :
    ProcessMessage [] (Json.obj [("type", Json.str "command"),
        ("id", Json.int 3)]) =
      .ok (Json.obj [("id", Json.int 3), ("type", Json.str "error"),
        ("error_code", Json.str "invalid_command"),
        ("error_message", Json.str ("Unknown command: " ++ ""))]) ∧
    ((Json.getField (Json.obj [("type", Json.str "command"),
        ("id", Json.int 3)]) "command" = none ∨
      Json.getField (Json.obj [("type", Json.str "command"),
        ("id", Json.int 3)]) "command" = some (.str "")) → "" = "") :=
  ProcessMessage_unknown_command_invalid [] _ "" 3 rfl rfl rfl rfl

/-- Counterexample for C2.  The request `{"type":"command","id":7,
"command":"foo"}` with no handler registered gets a response that carries
the matching `id` but NO `command` field at all: the `invalid_command`
branch does not echo `command`, contradicting the claim that every
response's `command` equals the request's. -/
theorem ProcessMessage_echo_counterexample :
    ProcessMessage [] (Json.obj [("type", Json.str "command"),
        ("id", Json.int 7), ("command", Json.str "foo")]) =
      Except.ok (Json.obj [("id", Json.int 7), ("type", Json.str "error"),
        ("error_code", Json.str "invalid_command"),
        ("error_message", Json.str "Unknown command: foo")]) ∧
    Json.getField (Json.obj [("id", Json.int 7), ("type", Json.str "error"),
        ("error_code", Json.str "invalid_command"),
        ("error_message", Json.str "Unknown command: foo")]) "command" =
      none := ⟨rfl, rfl⟩

/-- C2 amended.  For every valid command message, `ProcessMessage` returns
a response whose `id` equals the request's in all three branches; the
`command` field, when present, equals the request's `command`, and it is
present (forced) exactly on the success path, i.e. precisely when the
resolved handler returns a value the `operator[]` assignments accept (an
object or null): when the command is unknown, when the handler throws, and
when the handler returns a non-object non-null value, the error response
carries NO `command` field at all. -/
theorem ProcessMessage_id_forced_command_conditional
    (handlers : List (String × MessageHandler)) (message : Json)
    (cmd : String) (i : Int)
    (hty : message.valueStr "type" "" = .ok "command")
    (hcmd : message.valueStr "command" "" = .ok cmd)
    (hid : message.valueInt "id" 0 = .ok i) :
    ∃ resp, ProcessMessage handlers message = .ok resp ∧
      resp.getField "id" = some (.int i) ∧
      (∀ v, resp.getField "command" = some v → v = .str cmd) ∧
      (∀ hdl r, handlersFind handlers cmd = some hdl → hdl message = .ok r →
        r.isObjOrNull = true → resp.getField "command" = some (.str cmd)) ∧
      (handlersFind handlers cmd = none → resp.getField "command" = none) ∧
      (∀ hdl, handlersFind handlers cmd = some hdl →
        ((∃ e, hdl message = .error e) ∨
         (∃ r, hdl message = .ok r ∧ r.isObjOrNull = false)) →
        resp.getField "command" = none) := by
  cases hf : handlersFind handlers cmd with
  | none =>
      refine ⟨Json.obj [("id", .int i), ("type", .str "error"),
        ("error_code", .str "invalid_command"),
        ("error_message", .str ("Unknown command: " ++ cmd))],
        ?_, ?_, ?_, ?_, ?_, ?_⟩
      · simp [ProcessMessage, hty, hcmd, hid, hf, bind, Except.bind,
          pure, Except.pure]
      · simp [Json.getField, assocGet]
      · intro v hv
        simp [Json.getField, assocGet] at hv
      · intro hdl r hfind
        exact absurd hfind (by simp)
      · intro _
        simp [Json.getField, assocGet]
      · intro hdl hfind
        exact absurd hfind (by simp)
  | some h =>
      cases hr : h message with
      | error e =>
          refine ⟨Json.obj [("id", .int i), ("type", .str "error"),
            ("error_code", .str "command_failed"),
            ("error_message", .str ("Command execution failed: " ++ e))],
            ?_, ?_, ?_, ?_, ?_, ?_⟩
          · simp [ProcessMessage, hty, hcmd, hid, hf, hr, bind, Except.bind,
              pure, Except.pure]
          · simp [Json.getField, assocGet]
          · intro v hv
            simp [Json.getField, assocGet] at hv
          · intro hdl r hfind hok
            obtain rfl : h = hdl := by injection hfind
            rw [hr] at hok
            exact absurd hok (by simp)
          · intro hnone
            exact absurd hnone (by simp)
          · intro hdl hfind hcase
            simp [Json.getField, assocGet]
      | ok r =>
          cases r with
          | obj fields =>
              refine ⟨Json.obj (assocSet (assocSet fields "id" (.int i))
                "command" (.str cmd)), ?_, ?_, ?_, ?_, ?_, ?_⟩
              · simp [ProcessMessage, hty, hcmd, hid, hf, hr, Json.setField,
                  bind, Except.bind, pure, Except.pure]
              · simp only [Json.getField]
                rw [assocGet_assocSet_ne _ _ _ _ (by decide)]
                exact assocGet_assocSet_self ..
              · intro v hv
                simp only [Json.getField, assocGet_assocSet_self] at hv
                injection hv with hv
                exact hv.symm
              · intro hdl r hfind hok hobj
                simp only [Json.getField]
                exact assocGet_assocSet_self ..
              · intro hnone
                exact absurd hnone (by simp)
              · intro hdl hfind hcase
                obtain rfl : h = hdl := by injection hfind
                rcases hcase with ⟨e, he⟩ | ⟨r2, hr2, hno⟩
                · rw [hr] at he
                  exact Except.noConfusion he
                · rw [hr] at hr2
                  injection hr2 with hr2
                  rw [← hr2] at hno
                  simp [Json.isObjOrNull] at hno
          | null =>
              refine ⟨Json.obj [("id", .int i), ("command", .str cmd)],
                ?_, ?_, ?_, ?_, ?_, ?_⟩
              · simp [ProcessMessage, hty, hcmd, hid, hf, hr, Json.setField,
                  assocSet, bind, Except.bind, pure, Except.pure]
              · simp [Json.getField, assocGet]
              · intro v hv
                simp [Json.getField, assocGet] at hv
                exact hv.symm
              · intro hdl r hfind hok hobj
                simp [Json.getField, assocGet]
              · intro hnone
                exact absurd hnone (by simp)
              · intro hdl hfind hcase
                obtain rfl : h = hdl := by injection hfind
                rcases hcase with ⟨e, he⟩ | ⟨r2, hr2, hno⟩
                · rw [hr] at he
                  exact Except.noConfusion he
                · rw [hr] at hr2
                  injection hr2 with hr2
                  rw [← hr2] at hno
                  simp [Json.isObjOrNull] at hno
          | str sv =>
              refine ⟨Json.obj [("id", .int i), ("type", .str "error"),
                ("error_code", .str "command_failed"),
                ("error_message", .str ("Command execution failed: " ++
                  "type_error: cannot use operator with a string argument"))],
                ?_, ?_, ?_, ?_, ?_, ?_⟩
              · simp [ProcessMessage, hty, hcmd, hid, hf, hr, Json.setField,
                  bind, Except.bind, pure, Except.pure]
              · simp [Json.getField, assocGet]
              · intro v hv
                simp [Json.getField, assocGet] at hv
              · intro hdl r hfind hok hobj
                obtain rfl : h = hdl := by injection hfind
                rw [hr] at hok
                injection hok with hok
                rw [← hok] at hobj
                exact absurd hobj (by simp [Json.isObjOrNull])
              · intro hnone
                exact absurd hnone (by simp)
              · intro hdl hfind hcase
                simp [Json.getField, assocGet]
          | int n =>
              refine ⟨Json.obj [("id", .int i), ("type", .str "error"),
                ("error_code", .str "command_failed"),
                ("error_message", .str ("Command execution failed: " ++
                  "type_error: cannot use operator with a string argument"))],
                ?_, ?_, ?_, ?_, ?_, ?_⟩
              · simp [ProcessMessage, hty, hcmd, hid, hf, hr, Json.setField,
                  bind, Except.bind, pure, Except.pure]
              · simp [Json.getField, assocGet]
              · intro v hv
                simp [Json.getField, assocGet] at hv
              · intro hdl r hfind hok hobj
                obtain rfl : h = hdl := by injection hfind
                rw [hr] at hok
                injection hok with hok
                rw [← hok] at hobj
                exact absurd hobj (by simp [Json.isObjOrNull])
              · intro hnone
                exact absurd hnone (by simp)
              · intro hdl hfind hcase
                simp [Json.getField, assocGet]
          | bool b =>
              refine ⟨Json.obj [("id", .int i), ("type", .str "error"),
                ("error_code", .str "command_failed"),
                ("error_message", .str ("Command execution failed: " ++
                  "type_error: cannot use operator with a string argument"))],
                ?_, ?_, ?_, ?_, ?_, ?_⟩
              · simp [ProcessMessage, hty, hcmd, hid, hf, hr, Json.setField,
                  bind, Except.bind, pure, Except.pure]
              · simp [Json.getField, assocGet]
              · intro v hv
                simp [Json.getField, assocGet] at hv
              · intro hdl r hfind hok hobj
                obtain rfl : h = hdl := by injection hfind
                rw [hr] at hok
                injection hok with hok
                rw [← hok] at hobj
                exact absurd hobj (by simp [Json.isObjOrNull])
              · intro hnone
                exact absurd hnone (by simp)
              · intro hdl hfind hcase
                simp [Json.getField, assocGet]

/-- Witness for amended C2: a registered no-op handler that sets neither
`id` nor `command` still produces a response carrying the request's id 7
and command "echo"; the branch conjuncts hold at this instance too. -/
theorem ProcessMessage_id_forced_command_conditional_witness :
    ∃ resp, ProcessMessage [("echo", okHandler)]
        (Json.obj [("type", Json.str "command"), ("id", Json.int 7),
          ("command", Json.str "echo")]) = .ok resp ∧
      resp.getField "id" = some (.int 7) ∧
      (∀ v, resp.getField "command" = some v → v = .str "echo") ∧
      (∀ hdl r, handlersFind [("echo", okHandler)] "echo" = some hdl →
        hdl (Json.obj [("type", Json.str "command"), ("id", Json.int 7),
          ("command", Json.str "echo")]) = .ok r →
        r.isObjOrNull = true →
        resp.getField "command" = some (.str "echo")) ∧
      (handlersFind [("echo", okHandler)] "echo" = none →
        resp.getField "command" = none) ∧
      (∀ hdl, handlersFind [("echo", okHandler)] "echo" = some hdl →
        ((∃ e, hdl (Json.obj [("type", Json.str "command"),
            ("id", Json.int 7), ("command", Json.str "echo")]) =
            .error e) ∨
         (∃ r, hdl (Json.obj [("type", Json.str "command"),
            ("id", Json.int 7), ("command", Json.str "echo")]) = .ok r ∧
          r.isObjOrNull = false)) →
        resp.getField "command" = none) :=
  ProcessMessage_id_forced_command_conditional [("echo", okHandler)] _
    "echo" 7 rfl rfl rfl

/-- Counterexample for C1.  A worker that times out, then finishes within
the grace period with partial output "partial output", gets back the fixed
text "Command timed out (interrupted)": the partial output fetched by
`future.get()` into `interruptedResult` is discarded, not merged. -/
theorem ExecuteWithTimeout_partial_output_counterexample :
    (CommandExecutor.ExecuteWithTimeout partialOutputWorker).result.output =
      "Command timed out (interrupted)" ∧
    (CommandExecutor.ExecuteWithTimeout partialOutputWorker).result.output ≠
      "partial output" ++ " (interrupted)" := by
  constructor
  · rfl
  · decide

/-- C1 amended.  When the wait times out and the worker then finishes
within the grace period, the result is marked `timedOut` with
`hr = E_ABORT`, the cooperative interrupt is issued exactly when the
worker had stored the control handle, the worker is joined (not
detached), and the returned output is the fixed string
"Command timed out" with " (interrupted)" appended — the worker's
partial output is retrieved from the future but discarded. -/
theorem ExecuteWithTimeout_timeout_grace_amended (w : WorkerBehavior)
    (htime : w.finishesInTime = false) (hgrace : w.finishesInGrace = true) :
    (CommandExecutor.ExecuteWithTimeout w).result.hasTimedOut = true ∧
    (CommandExecutor.ExecuteWithTimeout w).result.hr = E_ABORT ∧
    (CommandExecutor.ExecuteWithTimeout w).interruptIssued = w.controlSet ∧
    (CommandExecutor.ExecuteWithTimeout w).joined = true ∧
    (CommandExecutor.ExecuteWithTimeout w).detached = false ∧
    (CommandExecutor.ExecuteWithTimeout w).result.output =
      "Command timed out" ++ " (interrupted)" := by
  simp [CommandExecutor.ExecuteWithTimeout, htime, hgrace]

/-- Witness for amended C1 at a concrete timed-out worker. -/
theorem ExecuteWithTimeout_timeout_grace_amended_witness :
    (CommandExecutor.ExecuteWithTimeout partialOutputWorker).result.hasTimedOut
      = true ∧
    (CommandExecutor.ExecuteWithTimeout partialOutputWorker).result.hr =
      E_ABORT ∧
    (CommandExecutor.ExecuteWithTimeout partialOutputWorker).interruptIssued =
      partialOutputWorker.controlSet ∧
    (CommandExecutor.ExecuteWithTimeout partialOutputWorker).joined = true ∧
    (CommandExecutor.ExecuteWithTimeout partialOutputWorker).detached =
      false ∧
    (CommandExecutor.ExecuteWithTimeout partialOutputWorker).result.output =
      "Command timed out" ++ " (interrupted)" :=
  ExecuteWithTimeout_timeout_grace_amended partialOutputWorker rfl rfl

/-- Counterexample for C6.  Calling `Start` on a server whose running flag
is set returns `true` — it reports success, it does not fail with an
AlreadyRunning error (it merely skips rebinding: state untouched, no
thread spawned). -/
theorem Start_second_call_counterexample :
    (MCPServer.Start { running := true, pipeName := "pipeA" } "pipeB").returned
      = true ∧
    MCPServer.Start { running := true, pipeName := "pipeA" } "pipeB" =
      { returned := true, state := { running := true, pipeName := "pipeA" },
        threadStarted := false } := by
  constructor
  · rfl
  · rfl

/-- C6 amended.  A second `Start` while the running flag is set reports
success (`true`) and is a no-op: the stored pipe name is unchanged and no
server thread is spawned. -/
theorem Start_second_call_amended (s : MCPServerState) (pipeName : String)
    (h : s.running = true) :
    MCPServer.Start s pipeName =
      { returned := true, state := s, threadStarted := false } := by
  simp [MCPServer.Start, h]

/-- Witness for amended C6. -/
theorem Start_second_call_amended_witness :
    MCPServer.Start { running := true, pipeName := "pipeA" } "pipeB" =
      { returned := true,
        state := { running := true, pipeName := "pipeA" },
        threadStarted := false } :=
  Start_second_call_amended _ "pipeB" rfl

/-- Lookup after `mapInsert` at the inserted key. -/
theorem mapFind_mapInsert_self {α : Type} (m : List (String × α))
    (key : String) (v : α) : mapFind (mapInsert m key v) key = some v := by
  induction m with
  | nil => simp [mapInsert, mapFind]
  | cons p rest ih =>
      obtain ⟨k, w⟩ := p
      by_cases hk : k = key
      · simp [mapInsert, mapFind, hk]
      · simp [mapInsert, mapFind, hk, ih]

/-- Lookup after `mapInsert` at any other key. -/
theorem mapFind_mapInsert_ne {α : Type} (m : List (String × α))
    (key key' : String) (v : α) (h : key ≠ key') :
    mapFind (mapInsert m key v) key' = mapFind m key' := by
  induction m with
  | nil => simp [mapInsert, mapFind, h]
  | cons p rest ih =>
      obtain ⟨k, w⟩ := p
      by_cases hk : k = key
      · subst hk
        simp [mapInsert, mapFind, h]
      · simp [mapInsert, mapFind, hk, ih]

/-- Counterexample for C7.  Registering "run" twice does not fail: the call
returns the updated map (the C++ method returns `void`, there is no error
path), and the second handler has silently replaced the first. -/
theorem RegisterHandler_duplicate_counterexample :
    MCPServer.RegisterHandler
        (MCPServer.RegisterHandler ([] : List (String × Nat)) "run" 1)
        "run" 2 = [("run", 2)] ∧
    mapFind (MCPServer.RegisterHandler
        (MCPServer.RegisterHandler ([] : List (String × Nat)) "run" 1)
        "run" 2) "run" ≠ some 1 := by
  constructor
  · rfl
  · decide

/-- C7 amended.  A second `RegisterHandler` with an already registered name
silently overwrites: afterwards the name maps to the new handler, every
other name is untouched, and no error is signalled (the operation is the
single statement `m_handlers[command] = handler;` with no failure path). -/
theorem RegisterHandler_silent_overwrite {α : Type} (m : List (String × α))
    (name : String) (v1 v2 : α) (h : mapFind m name = some v1) :
    mapFind (MCPServer.RegisterHandler m name v2) name = some v2 ∧
    ∀ k, name ≠ k →
      mapFind (MCPServer.RegisterHandler m name v2) k = mapFind m k := by
  refine ⟨mapFind_mapInsert_self m name v2, ?_⟩
  intro k hk
  exact mapFind_mapInsert_ne m name k v2 hk

/-- Witness for amended C7. -/
theorem RegisterHandler_silent_overwrite_witness :
    mapFind (MCPServer.RegisterHandler [("run", 1)] "run" 2) "run" = some 2 ∧
    ∀ k, "run" ≠ k →
      mapFind (MCPServer.RegisterHandler [("run", (1 : Nat))] "run" 2) k =
        mapFind [("run", 1)] k :=
  RegisterHandler_silent_overwrite [("run", 1)] "run" 1 2 rfl

/-- Counterexample for C8.  The output "x NONE y" contains the native
layer's "no result" sentinel marker, yet the emptiness check of
`CommandHandlers::ExecuteWinDbgCommand` rejects it — and the function
returns it verbatim instead of taking the empty-output branch. -/
theorem outputEmptinessCheck_contains_counterexample :
    containsSub "x NONE y" "NONE" = true ∧
    outputEmptinessCheck "x NONE y" = false ∧
    CommandHandlers.ExecuteWinDbgCommand sentinelSubstrExec
      "k" 1000 = .ok "x NONE y" := by
  refine ⟨by decide, by decide, ?_⟩
  rfl

/-- C8 amended.  The emptiness check treats an output as empty exactly when
it is the empty string or is wholly equal to the sentinel "NONE" or
"None"; any output on which the check is false — in particular one merely
containing the sentinel — is returned unchanged by
`CommandHandlers::ExecuteWinDbgCommand` (given no timeout and a
non-failed HRESULT). -/
theorem outputEmptinessCheck_exact_equality :
    (∀ s, outputEmptinessCheck s = true ↔
      (s = "" ∨ s = "NONE" ∨ s = "None")) ∧
    (∀ (exec : String → Nat → CommandResult) (cmd : String) (t : Nat),
      (exec cmd t).hasTimedOut = false →
      FAILED (exec cmd t).hr = false →
      outputEmptinessCheck (exec cmd t).output = false →
      CommandHandlers.ExecuteWinDbgCommand exec cmd t =
        .ok (exec cmd t).output) := by
  constructor
  · intro s
    simp [outputEmptinessCheck, String.isEmpty_iff, or_assoc]
  · intro exec cmd t h1 h2 h3
    simp [CommandHandlers.ExecuteWinDbgCommand, h1, h2, h3]

/-- Witness for amended C8: "None" passes the check; an output that only
contains the sentinel is returned verbatim. -/
theorem outputEmptinessCheck_exact_equality_witness :
    outputEmptinessCheck "None" = true ∧
    CommandHandlers.ExecuteWinDbgCommand sentinelSubstrExec "k" 1000 =
      .ok (sentinelSubstrExec "k" 1000).output :=
  ⟨(outputEmptinessCheck_exact_equality.1 "None").mpr (by decide),
    outputEmptinessCheck_exact_equality.2
      sentinelSubstrExec "k" 1000 rfl rfl (by decide)⟩

/-- C10.  For the empty command string,
`CommandUtilities::ExecuteWinDbgCommand` throws
`std::invalid_argument("Command cannot be empty")` before the try block:
the result is this error for EVERY executor environment, so no native
call or worker is ever consulted. -/
theorem CU_ExecuteWinDbgCommand_empty_command
    (env : String → Nat → WorkerBehavior) (timeoutMs : Nat) :
    CommandUtilities.ExecuteWinDbgCommand env "" timeoutMs =
      .error (.invalidArgument "Command cannot be empty") := rfl

theorem extractLoop_none {buf : List Char} (h : splitFirstNl buf = none) :
    extractLoop buf = ([], buf) := by
  rw [extractLoop]
  split <;> simp_all

theorem extractLoop_some {buf : List Char} {mr : List Char × List Char}
    (h : splitFirstNl buf = some mr) :
    extractLoop buf = (mr.1 :: (extractLoop mr.2).1, (extractLoop mr.2).2) := by
  rw [extractLoop]
  split <;> simp_all

theorem splitFirstNl_append_some {b1 m r : List Char} (b2 : List Char)
    (h : splitFirstNl b1 = some (m, r)) :
    splitFirstNl (b1 ++ b2) = some (m, r ++ b2) := by
  induction b1 generalizing m r with
  | nil => simp [splitFirstNl] at h
  | cons c rest ih =>
      simp only [List.cons_append, splitFirstNl] at h ⊢
      by_cases hc : c = '\n'
      · rw [if_pos hc] at h ⊢
        injection h with h
        injection h with h1 h2
        rw [← h1, ← h2]
        rfl
      · rw [if_neg hc] at h ⊢
        cases hsr : splitFirstNl rest with
        | none => rw [hsr] at h; cases h
        | some mrTail =>
            obtain ⟨a, b⟩ := mrTail
            rw [hsr] at h
            injection h with h
            injection h with h1 h2
            simp only [List.append_eq]
            rw [ih hsr, ← h1, ← h2]

theorem extractLoop_rem_none (buf : List Char) :
    splitFirstNl (extractLoop buf).2 = none := by
  induction buf using extractLoop.induct with
  | case1 buf h => rw [extractLoop_none h]; exact h
  | case2 buf mr h hlen ih =>
      rw [extractLoop_some h]
      exact ih

theorem splitFirstNl_append_mr {b1 : List Char} {mr : List Char × List Char}
    (b2 : List Char) (h : splitFirstNl b1 = some mr) :
    splitFirstNl (b1 ++ b2) = some (mr.1, mr.2 ++ b2) := by
  obtain ⟨m, r⟩ := mr
  exact splitFirstNl_append_some b2 h

theorem extractLoop_append (b1 b2 : List Char) :
    extractLoop (b1 ++ b2) =
      ((extractLoop b1).1 ++ (extractLoop ((extractLoop b1).2 ++ b2)).1,
       (extractLoop ((extractLoop b1).2 ++ b2)).2) := by
  induction b1 using extractLoop.induct with
  | case1 b1 h =>
      rw [extractLoop_none h]
      simp
  | case2 b1 mr h hlen ih =>
      rw [extractLoop_some h, extractLoop_some (splitFirstNl_append_mr b2 h)]
      simp only [extractLoop_some h]
      rw [ih]
      simp

theorem joinNl_cons (m : List Char) (ms : List (List Char)) :
    joinNl (m :: ms) = m ++ '\n' :: joinNl ms := by
  simp [joinNl]

theorem splitFirstNl_recon {buf : List Char} {mr : List Char × List Char}
    (h : splitFirstNl buf = some mr) : buf = mr.1 ++ '\n' :: mr.2 := by
  induction buf generalizing mr with
  | nil => simp [splitFirstNl] at h
  | cons c rest ih =>
      simp only [splitFirstNl] at h
      by_cases hc : c = '\n'
      · rw [if_pos hc] at h
        injection h with h
        rw [← h, hc]
        rfl
      · rw [if_neg hc] at h
        cases hsr : splitFirstNl rest with
        | none => rw [hsr] at h; cases h
        | some mrTail =>
            rw [hsr] at h
            injection h with h
            rw [← h]
            simp only [List.cons_append]
            rw [← ih hsr]
  
theorem splitFirstNl_fst_no_nl {buf : List Char} {mr : List Char × List Char}
    (h : splitFirstNl buf = some mr) : '\n' ∉ mr.1 := by
  induction buf generalizing mr with
  | nil => simp [splitFirstNl] at h
  | cons c rest ih =>
      simp only [splitFirstNl] at h
      by_cases hc : c = '\n'
      · rw [if_pos hc] at h
        injection h with h
        rw [← h]
        simp
      · rw [if_neg hc] at h
        cases hsr : splitFirstNl rest with
        | none => rw [hsr] at h; cases h
        | some mrTail =>
            rw [hsr] at h
            injection h with h
            rw [← h]
            simp only [List.mem_cons, not_or]
            exact ⟨fun hx => hc hx.symm, ih hsr⟩

theorem splitFirstNl_none_no_nl {buf : List Char}
    (h : splitFirstNl buf = none) : '\n' ∉ buf := by
  induction buf with
  | nil => simp
  | cons c rest ih =>
      simp only [splitFirstNl] at h
      by_cases hc : c = '\n'
      · rw [if_pos hc] at h; cases h
      · rw [if_neg hc] at h
        cases hsr : splitFirstNl rest with
        | none =>
            simp only [List.mem_cons, not_or]
            exact ⟨fun hx => hc hx.symm, ih hsr⟩
        | some mrTail => rw [hsr] at h; cases h

theorem extractLoop_recon (buf : List Char) :
    joinNl (extractLoop buf).1 ++ (extractLoop buf).2 = buf := by
  induction buf using extractLoop.induct with
  | case1 buf h =>
      rw [extractLoop_none h]
      simp [joinNl]
  | case2 buf mr h hlen ih =>
      rw [extractLoop_some h, joinNl_cons]
      conv_rhs => rw [splitFirstNl_recon h]
      simp only [List.append_assoc, List.cons_append]
      rw [ih]

theorem extractLoop_msgs_no_nl (buf : List Char) :
    ∀ m ∈ (extractLoop buf).1, '\n' ∉ m := by
  induction buf using extractLoop.induct with
  | case1 buf h =>
      rw [extractLoop_none h]
      simp
  | case2 buf mr h hlen ih =>
      rw [extractLoop_some h]
      intro m hm
      rcases List.mem_cons.mp hm with hm | hm
      · rw [hm]; exact splitFirstNl_fst_no_nl h
      · exact ih m hm

theorem foldl_handleClientStep (chunks : List (List Char)) :
    ∀ ms0 rem0, splitFirstNl rem0 = none →
      chunks.foldl handleClientStep (ms0, rem0) =
        (ms0 ++ (extractLoop (rem0 ++ chunks.flatten)).1,
         (extractLoop (rem0 ++ chunks.flatten)).2) := by
  induction chunks with
  | nil =>
      intro ms0 rem0 h
      simp [extractLoop_none h]
  | cons c cs ih =>
      intro ms0 rem0 h
      simp only [List.foldl_cons]
      have hstep : handleClientStep (ms0, rem0) c =
          (ms0 ++ (extractLoop (rem0 ++ c)).1, (extractLoop (rem0 ++ c)).2) :=
        rfl
      rw [hstep, ih _ _ (extractLoop_rem_none _)]
      conv_rhs => rw [List.flatten_cons, ← List.append_assoc, extractLoop_append]
      simp [List.append_assoc]

/-- C3.  For every sequence of byte chunks appended to a connection's
message buffer, the extraction loop of `HandleClient` yields exactly the
newline-terminated messages of the concatenation of the chunks, in order,
with no loss and no duplication: processing the chunks one read at a time
equals one extraction over the whole byte stream; reattaching a newline
to each extracted message and appending the leftover buffer reconstructs
the byte stream exactly; no extracted message contains a newline; and the
bytes after the last newline (and only those) remain in the buffer. -/
theorem HandleClient_message_extraction (chunks : List (List Char)) :
    handleClientChunks chunks = extractLoop chunks.flatten ∧
    joinNl (handleClientChunks chunks).1 ++ (handleClientChunks chunks).2 =
      chunks.flatten ∧
    (handleClientChunks chunks).1.all (fun m => !(m.contains '\n')) = true ∧
    (handleClientChunks chunks).2.contains '\n' = false := by
  have h1 : handleClientChunks chunks = extractLoop chunks.flatten := by
    unfold handleClientChunks
    rw [foldl_handleClientStep chunks [] [] rfl]
    simp
  refine ⟨h1, ?_, ?_, ?_⟩
  · rw [h1]
    exact extractLoop_recon _
  · rw [h1, List.all_eq_true]
    intro m hm
    have := extractLoop_msgs_no_nl chunks.flatten m hm
    simpa using this
  · rw [h1]
    have := splitFirstNl_none_no_nl (extractLoop_rem_none chunks.flatten)
    simpa using this
